import Mathlib

/-
Verification of the BIDS naming and BrainVision cross-reference engine
(mne_bids/utils.py): a shallow embedding of `make_bids_filename`,
`make_bids_folders`, `_check_types`, `_check_key_val` and
`copyfile_brainvision`, together with theorems settling the specified
properties.

Python dynamic values relevant to these functions (None, str, int) are
embedded as the `PyVal` type.  Error classes are embedded as `BidsError`,
one constructor per error taxonomy kind (TypeKind for the `_check_types`
ValueError, ValidationKind for the `_check_key_val` ValueError, ValueKind
for the remaining ValueErrors, IOKind for IOError).  The filesystem is an
association list from path to raw file content; a write prepends.
-/

inductive BidsError where
  | typeKind (msg : String)
  | validationKind (msg : String)
  | valueKind (msg : String)
  | ioKind (msg : String)
deriving DecidableEq, Repr

inductive PyVal where
  | none
  | str (s : String)
  | int (n : Int)
deriving DecidableEq, Repr

/-- The characters stripped by Python `str.strip()` (ASCII whitespace). -/
def pyWhitespace (c : Char) : Bool :=
  c == ' ' || c == '\t' || c == '\n' || c == '\r' || c == '\x0b' || c == '\x0c'

/-- Embedding of Python `str.strip()`: remove leading and trailing whitespace. -/
def pyStrip (s : String) : String :=
  ⟨((s.data.dropWhile pyWhitespace).reverse.dropWhile pyWhitespace).reverse⟩

/-- Fuelled scanner for Python `str.replace`: leftmost non-overlapping
occurrences of `pat` are replaced by `rep`.  One unit of fuel is spent per
step; a step consumes at least one input character, so fuel
`input.length + 1` always suffices. -/
def pyReplaceFuel (pat rep : List Char) : Nat → List Char → List Char
  | 0, s => s
  | _ + 1, [] => []
  | fuel + 1, c :: rest =>
    if pat.isPrefixOf (c :: rest) && !pat.isEmpty then
      rep ++ pyReplaceFuel pat rep fuel (rest.drop (pat.length - 1))
    else
      c :: pyReplaceFuel pat rep fuel rest

/-- Python `s.replace(old, new)` with `old = ""` inserts `new` at every
position, including both ends. -/
def interleaveRep (rep : List Char) : List Char → List Char
  | [] => rep
  | c :: rest => rep ++ c :: interleaveRep rep rest

/-- Embedding of Python `str.replace`: replace every (leftmost,
non-overlapping) occurrence of `pat` in `s` by `rep`. -/
def pyReplace (s pat rep : String) : String :=
  if pat.data.isEmpty then ⟨interleaveRep rep.data s.data⟩
  else ⟨pyReplaceFuel pat.data rep.data (s.data.length + 1) s.data⟩

/-- The character of a decimal digit (argument below ten at every use). -/
def pyDigitChar : Nat → Char
  | 0 => '0' | 1 => '1' | 2 => '2' | 3 => '3' | 4 => '4'
  | 5 => '5' | 6 => '6' | 7 => '7' | 8 => '8' | _ => '9'

/-- Fuelled decimal digit expansion, most significant digit first. -/
def natReprAux : Nat → Nat → List Char
  | 0, _ => []
  | fuel + 1, n =>
    if n < 10 then [pyDigitChar n]
    else natReprAux fuel (n / 10) ++ [pyDigitChar (n % 10)]

/-- Embedding of Python `str(n)` for a non-negative integer. -/
def pyNatRepr (n : Nat) : String := ⟨natReprAux (n + 1) n⟩

/-- Embedding of Python `str(n)` for an arbitrary integer. -/
def pyIntRepr : Int → String
  | Int.ofNat m => pyNatRepr m
  | Int.negSucc m => "-" ++ pyNatRepr (m + 1)

/-- Embedding of Python `'{:02}'.format(n)`: pad the decimal representation
with `0` on the left to width two.  Only single-character representations
(the non-negative single digits) are ever padded at width two. -/
def format02 (n : Int) : String :=
  let s := pyIntRepr n
  if s.length < 2 then "0" ++ s else s

/-- Helper for `readlines`: split after each newline, keeping the newline,
accumulating the current (reversed) line in `acc`. -/
def splitLinesAux : List Char → List Char → List String
  | [], acc => if acc.isEmpty then [] else [⟨acc.reverse⟩]
  | c :: rest, acc =>
    if c == '\n' then ⟨(c :: acc).reverse⟩ :: splitLinesAux rest []
    else splitLinesAux rest (c :: acc)

/-- Embedding of Python `f.readlines()` on the file content: the list of
lines, each retaining its trailing newline (the final line may lack one). -/
def readlines (s : String) : List String := splitLinesAux s.data []

/-- Writing a list of lines one after the other (`f.write(line)` per line). -/
def concatLines : List String → String
  | [] => ""
  | l :: ls => l ++ concatLines ls

/-- Embedding of `fname.split(os.sep)[-1]` (POSIX separator): the part of the
string after the last slash. -/
def lastComponent (s : String) : String :=
  ⟨(s.data.reverse.takeWhile (fun c => c != '/')).reverse⟩

/-- Modelled from the spec: the extension-classification primitive
`_parse_ext` is imported from a module that is not part of the given source;
the spec describes it as splitting a path into the part before the file
extension and the extension itself.  Modelled with POSIX `splitext`
semantics: the extension starts at the last dot of the last path component,
and a run of leading dots in that component does not begin an extension. -/
def _parse_ext (p : String) : String × String :=
  let r := p.data.reverse
  let compR := r.takeWhile (fun c => c != '/')
  let dirR := r.drop compR.length
  let extR := compR.takeWhile (fun c => c != '.')
  match compR.drop extR.length with
  | [] => (p, "")
  | _ :: preR =>
    if preR.all (fun c => c == '.') then (p, "")
    else (⟨dirR.reverse ++ preR.reverse⟩, ⟨'.' :: extR.reverse⟩)

/-- Embedding of POSIX `os.path.join` on two components: an absolute second
component discards the first; otherwise the parts are glued, inserting a
slash unless the first part is empty or already ends in one. -/
def osPathJoin (a b : String) : String :=
  if b.data.head? = some '/' then b
  else if a = "" then b
  else if a.data.getLast? = some '/' then a ++ b
  else a ++ "/" ++ b

/-- `os.path.join(*path)` on a non-empty list folds `osPathJoin` from the
left. -/
def osPathJoinList : List String → String
  | [] => ""
  | p :: rest => rest.foldl osPathJoin p

/-- View of an optional string as a Python value. -/
def pvOf : Option String → PyVal
  | Option.none => PyVal.none
  | Option.some s => PyVal.str s

/-- Embedding of Python `'%s' % v` on the values of `PyVal`. -/
def pyStrOf : PyVal → String
  | PyVal.none => "None"
  | PyVal.str s => s
  | PyVal.int n => pyIntRepr n

/-- The test `any(ii in val for ii in ['-', '_', '/'])` of `_check_key_val`. -/
def hasForbidden (val : String) : Bool :=
  ['-', '_', '/'].any (fun c => val.data.contains c)

/-- Embedding of `_check_key_val` (utils.py): reject a value containing
`-`, `_` or `/`, otherwise return the pair unchanged. -/
def _check_key_val (key val : String) : Except BidsError (String × String) :=
  if hasForbidden val then
    Except.error (BidsError.validationKind
      ("Unallowed `-`, `_`, or `/` found in key/value pair " ++ key ++ ": " ++ val))
  else Except.ok (key, val)

/-- Embedding of `_check_types` (utils.py): every variable must be a string
or None; the first offender raises.  (In the embedded value universe the
only non-string non-None values are integers.) -/
def _check_types : List PyVal → Except BidsError Unit
  | [] => Except.ok ()
  | PyVal.int _ :: _ =>
    Except.error (BidsError.typeKind
      "All values must be either None or strings. Found type int.")
  | _ :: rest => _check_types rest

/-- In the source the guard iterates over `order.keys()`; every key of the
`OrderedDict` is a Python string literal, so `isinstance(key, string_types)`
is `True` for each of them.  This function embeds that isinstance test on
the (always-string) keys. -/
def pyKeyIsString (_k : String) : Bool := true

/-- The `run` normalisation of `make_bids_filename`: a non-None, non-string
run value is formatted as a two-digit zero-padded decimal string. -/
def normRun : PyVal → PyVal
  | PyVal.int n => PyVal.str (format02 n)
  | v => v

/-- The entity loop of `make_bids_filename`: skip None values, validate each
provided value with `_check_key_val`, and render it as `key-value`.
A (post-check unreachable) integer value would make Python's `in` test
raise a TypeError. -/
def buildTokens : List (String × PyVal) → Except BidsError (List String)
  | [] => Except.ok []
  | (k, v) :: rest =>
    match v with
    | PyVal.none => buildTokens rest
    | PyVal.str s =>
      match _check_key_val k s with
      | Except.error e => Except.error e
      | Except.ok _ =>
        match buildTokens rest with
        | Except.error e => Except.error e
        | Except.ok ts => Except.ok ((k ++ "-" ++ s) :: ts)
    | PyVal.int _ =>
      Except.error (BidsError.typeKind "argument of type int is not iterable")

/-- Embedding of `make_bids_filename` (utils.py). -/
def make_bids_filename (subject session task acquisition run processing
    recording space suffix prefixPath : PyVal) : Except BidsError String :=
  let order : List (String × PyVal) :=
    [("sub", subject), ("ses", session), ("task", task), ("acq", acquisition),
     ("run", normRun run), ("proc", processing), ("space", space),
     ("recording", recording)]
  match _check_types (order.map Prod.snd) with
  | Except.error e => Except.error e
  | Except.ok _ =>
    if !((order.map Prod.fst).any pyKeyIsString) then
      Except.error (BidsError.valueKind "At least one parameter must be given.")
    else
      match buildTokens order with
      | Except.error e => Except.error e
      | Except.ok tokens =>
        let tokens := match suffix with
          | PyVal.str s => tokens ++ [s]
          | _ => tokens
        let filename := String.intercalate "_" tokens
        Except.ok (match prefixPath with
          | PyVal.str p => osPathJoin p filename
          | _ => filename)

/-- Embedding of `make_bids_folders` (utils.py).  The returned pair is the
composed path together with the list of directory-creation effects
(`_mkdir_p` calls); when `make_dir` is false no effect is recorded. -/
def make_bids_folders (subject session kind root : PyVal)
    (make_dir _overwrite _verbose : Bool) :
    Except BidsError (String × List String) :=
  match _check_types [subject, kind, session, root] with
  | Except.error e => Except.error e
  | Except.ok _ =>
    match (match session with
           | PyVal.none => Except.ok ()
           | PyVal.str s => (_check_key_val "ses" s).map (fun _ => ())
           | PyVal.int _ =>
             Except.error (BidsError.typeKind
               "argument of type int is not iterable")) with
    | Except.error e => Except.error e
    | Except.ok _ =>
      let path : List String := ["sub-" ++ pyStrOf subject]
      let path := match session with
        | PyVal.str s => path ++ ["ses-" ++ s]
        | _ => path
      let path := match kind with
        | PyVal.str s => path ++ [s]
        | _ => path
      let p := osPathJoinList path
      let p := match root with
        | PyVal.str r => osPathJoin r p
        | _ => p
      if make_dir then Except.ok (p, [p]) else Except.ok (p, [])

/-- The reference lines searched for by `copyfile_brainvision`. -/
def searchLines (basename : String) : List String :=
  ["DataFile=" ++ basename ++ ".eeg", "MarkerFile=" ++ basename ++ ".vmrk"]

/-- The per-line body of the rewrite loop of `copyfile_brainvision`: a line
whose stripped content is one of the search lines has every occurrence of
the source basename replaced by the destination basename; any other line is
written verbatim. -/
def rewriteLine (search : List String) (basenameSrc basenameDest line : String) :
    String :=
  if search.contains (pyStrip line) then pyReplace line basenameSrc basenameDest
  else line

/-- The closed set of BrainVision extensions. -/
def bv_ext : List String := [".eeg", ".vhdr", ".vmrk"]

/-- The filesystem model: an association list from path to raw content. -/
abbrev FileSystem := List (String × String)

/-- Embedding of `copyfile_brainvision` (utils.py).  On success the
destination file is written (prepended to the association list); every
failed precondition returns an error before anything is written. -/
def copyfile_brainvision (fs : FileSystem) (src dest : String) :
    Except BidsError FileSystem :=
  match fs.lookup src with
  | Option.none =>
    Except.error (BidsError.ioKind ("File does not exist: " ++ src ++ "\n"))
  | Option.some content =>
    let ext_src := (_parse_ext src).2
    let ext_dest := (_parse_ext dest).2
    if ext_src ≠ ext_dest then
      Except.error (BidsError.valueKind
        ("Need to move data with same extension but got " ++ ext_src ++ ", "
          ++ ext_dest))
    else if ¬ bv_ext.contains ext_src then
      Except.error (BidsError.valueKind
        ("Expecting file ending in one of [.eeg, .vhdr, .vmrk], but got "
          ++ ext_src))
    else if ext_src = ".eeg" then
      Except.ok ((dest, content) :: fs)
    else
      let basename_src := lastComponent (_parse_ext src).1
      let basename_dest := lastComponent (_parse_ext dest).1
      Except.ok ((dest, concatLines ((readlines content).map
        (rewriteLine (searchLines basename_src) basename_src basename_dest)))
        :: fs)

/-- The token list described by the spec sentence for the filename builder:
the non-None entities rendered `key-value` in the fixed canonical order
sub, ses, task, acq, run, proc, space, recording, then the suffix. -/
def canonicalTokens (subject session task acquisition run processing
    recording space suffix : Option String) : List String :=
  ([("sub", subject), ("ses", session), ("task", task), ("acq", acquisition),
    ("run", run), ("proc", processing), ("space", space),
    ("recording", recording)].filterMap
      (fun kv => kv.2.map (fun v => kv.1 ++ "-" ++ v)))
  ++ (match suffix with
      | Option.some s => [s]
      | Option.none => [])

/-- Decidable form of entity-value validity: None, or a string free of the
forbidden characters. -/
def validOptB : Option String → Bool
  | Option.none => true
  | Option.some v => !hasForbidden v

/-- A well-formed text-file line: some characters without a newline,
terminated by one. -/
def IsNlLine (l : String) : Prop :=
  ∃ w : List Char, l.data = w ++ ['\n'] ∧ '\n' ∉ w

/-- The path described by the spec sentence for the folder builder:
`root/sub-<subject>/ses-<session>/<kind>` with each optional segment
present exactly when its source value is non-None. -/
def composedPath (subject : String) (session kind root : Option String) :
    String :=
  (match root with
   | Option.some r => r ++ "/"
   | Option.none => "")
  ++ "sub-" ++ subject
  ++ (match session with
      | Option.some s => "/ses-" ++ s
      | Option.none => "")
  ++ (match kind with
      | Option.some k => "/" ++ k
      | Option.none => "")

/-! ### Digit and run-formatting lemmas -/

theorem pyDigitChar_not_forbidden (d : Nat) :
    pyDigitChar d ≠ '-' ∧ pyDigitChar d ≠ '_' ∧ pyDigitChar d ≠ '/' := by
  unfold pyDigitChar
  split <;> exact ⟨by decide, by decide, by decide⟩

theorem natReprAux_not_forbidden (fuel : Nat) :
    ∀ (n : Nat) (c : Char), c ∈ natReprAux fuel n →
      c ≠ '-' ∧ c ≠ '_' ∧ c ≠ '/' := by
  induction fuel with
  | zero => intro n c hc; cases hc
  | succ fuel ih =>
    intro n c hc
    simp only [natReprAux] at hc
    by_cases h : n < 10
    · rw [if_pos h] at hc
      rcases List.mem_singleton.1 hc with rfl
      exact pyDigitChar_not_forbidden n
    · rw [if_neg h] at hc
      rcases List.mem_append.1 hc with h1 | h1
      · exact ih (n / 10) c h1
      · rcases List.mem_singleton.1 h1 with rfl
        exact pyDigitChar_not_forbidden (n % 10)

theorem hasForbidden_pyNatRepr (n : Nat) : hasForbidden (pyNatRepr n) = false := by
  simp only [hasForbidden, List.any_cons, List.any_nil, Bool.or_false,
    Bool.or_eq_false_iff]
  refine ⟨?_, ?_, ?_⟩ <;>
    · apply Bool.eq_false_iff.2
      intro h
      rcases natReprAux_not_forbidden (n + 1) n _ (List.elem_iff.1 h) with ⟨h1, h2, h3⟩
      first
      | exact h1 rfl
      | exact h2 rfl
      | exact h3 rfl

theorem natReprAux_length_pos (fuel n : Nat) (h : 0 < fuel) :
    0 < (natReprAux fuel n).length := by
  cases fuel with
  | zero => omega
  | succ fuel =>
    simp only [natReprAux]
    by_cases h10 : n < 10
    · rw [if_pos h10]; simp
    · rw [if_neg h10]; simp

theorem pyNatRepr_length_two (n : Nat) (h : 10 ≤ n) : 2 ≤ (pyNatRepr n).length := by
  show 2 ≤ (natReprAux (n + 1) n).length
  simp only [natReprAux]
  rw [if_neg (by omega : ¬ n < 10)]
  have hp := natReprAux_length_pos n (n / 10) (by omega)
  simp only [List.length_append, List.length_cons, List.length_nil]
  omega

theorem format02_of_ge_100 (n : Int) (h : (100 : Int) ≤ n) :
    format02 n = pyIntRepr n := by
  obtain ⟨m, rfl⟩ := Int.eq_ofNat_of_zero_le (by omega : (0:Int) ≤ n)
  have hm : 10 ≤ m := by omega
  show (if (pyNatRepr m).length < 2 then "0" ++ pyNatRepr m else pyNatRepr m)
      = pyNatRepr m
  rw [if_neg (by have := pyNatRepr_length_two m hm; omega)]

theorem intercalate_single (x : String) : String.intercalate "_" [x] = x := by
  simp [String.intercalate, String.intercalate.go]

theorem make_bids_filename_run_str (s : String) (h : hasForbidden s = false) :
    make_bids_filename PyVal.none PyVal.none PyVal.none PyVal.none (PyVal.str s)
      PyVal.none PyVal.none PyVal.none PyVal.none PyVal.none
      = Except.ok ("run-" ++ s) := by
  simp only [make_bids_filename, normRun, List.map_cons, List.map_nil,
    _check_types, buildTokens, _check_key_val, h, Bool.false_eq_true,
    if_false, pyKeyIsString, List.any_cons, List.any_nil]
  simp only [Bool.true_or, Bool.or_true, Bool.not_true, Bool.false_eq_true,
    if_false, intercalate_single]
  rw [show ("run" ++ "-" ++ s : String) = "run-" ++ s from rfl]

theorem make_bids_filename_run_normalised (r1 r2 : PyVal) (h : normRun r1 = normRun r2)
    (subject session task acquisition processing recording space suffix
      prefixPath : PyVal) :
    make_bids_filename subject session task acquisition r1 processing
        recording space suffix prefixPath
      = make_bids_filename subject session task acquisition r2 processing
        recording space suffix prefixPath := by
  simp only [make_bids_filename, h]

/-! ### Claim C4 (code bug): the zero-entity guard never fires -/

/-- C4: the claim says that with all eight entity values None,
`make_bids_filename` fails with a ValueKind error "at least one parameter
must be given".  The code instead tests `order.keys()` — all of which are
strings — so the guard is dead: with every entity None the call returns the
empty filename (or just the suffix), raising nothing.  This theorem
evaluates the embedded code at the failing inputs. -/
theorem make_bids_filename_no_params_no_error :
    make_bids_filename PyVal.none PyVal.none PyVal.none PyVal.none PyVal.none
        PyVal.none PyVal.none PyVal.none PyVal.none PyVal.none
      = Except.ok ""
    ∧ make_bids_filename PyVal.none PyVal.none PyVal.none PyVal.none PyVal.none
        PyVal.none PyVal.none PyVal.none (PyVal.str "data.csv") PyVal.none
      = Except.ok "data.csv" :=
  ⟨rfl, rfl⟩

/-! ### Claim C10: non-string suffix and prefix are silently ignored -/

/-- C10: a suffix or prefix that is neither a string nor None (here: an
integer) does not make `make_bids_filename` raise; the non-string suffix is
omitted and the non-string prefix is not prepended, because `_check_types`
covers only the eight entity values.  The behaviour equals that with the
corresponding argument None, and a concrete run succeeds. -/
theorem make_bids_filename_nonstring_suffix_prefix_ignored :
    (∀ (subject session task acquisition run processing recording space : PyVal)
       (n m : Int),
      make_bids_filename subject session task acquisition run processing
          recording space (PyVal.int n) (PyVal.int m)
        = make_bids_filename subject session task acquisition run processing
          recording space PyVal.none PyVal.none)
    ∧ make_bids_filename (PyVal.str "a") PyVal.none PyVal.none PyVal.none
        PyVal.none PyVal.none PyVal.none PyVal.none (PyVal.int 5) (PyVal.int 6)
      = Except.ok "sub-a" := by
  refine ⟨?_, rfl⟩
  intro subject session task acquisition run processing recording space n m
  rfl

/-! ### Claim C8: run formatting -/

/-- C8: a non-string `run` is rendered as a zero-padded two-digit decimal
token (`run=7` gives `run-07`), values at or above 100 widen to their full
decimal representation without truncation, and a string `run` is used as-is
(`run="7"` gives `run-7`). -/
theorem make_bids_filename_run_formatting :
    make_bids_filename PyVal.none PyVal.none PyVal.none PyVal.none
        (PyVal.int 7) PyVal.none PyVal.none PyVal.none PyVal.none PyVal.none
      = Except.ok "run-07"
    ∧ make_bids_filename PyVal.none PyVal.none PyVal.none PyVal.none
        (PyVal.str "7") PyVal.none PyVal.none PyVal.none PyVal.none PyVal.none
      = Except.ok "run-7"
    ∧ ∀ n : Int, (100 : Int) ≤ n →
        make_bids_filename PyVal.none PyVal.none PyVal.none PyVal.none
          (PyVal.int n) PyVal.none PyVal.none PyVal.none PyVal.none PyVal.none
        = Except.ok ("run-" ++ pyIntRepr n) := by
  refine ⟨rfl, rfl, ?_⟩
  intro n hn
  have hnorm : normRun (PyVal.int n) = normRun (PyVal.str (pyIntRepr n)) := by
    simp [normRun, format02_of_ge_100 n hn]
  rw [make_bids_filename_run_normalised _ _ hnorm]
  obtain ⟨m, rfl⟩ := Int.eq_ofNat_of_zero_le (by omega : (0:Int) ≤ n)
  exact make_bids_filename_run_str _ (hasForbidden_pyNatRepr m)

/-- C8 witness: the universally quantified part applied at the concrete
input 123. -/
theorem make_bids_filename_run_formatting_witness :
    make_bids_filename PyVal.none PyVal.none PyVal.none PyVal.none
        (PyVal.int 123) PyVal.none PyVal.none PyVal.none PyVal.none PyVal.none
      = Except.ok ("run-" ++ pyIntRepr 123) :=
  make_bids_filename_run_formatting.2.2 123 (by decide)

/-! ### Counterexamples for the rewrite claims -/

/-- C1 counterexample: the claim promises that for EVERY source basename the
rewritten reference lines read `DataFile=<dest>.eeg` and
`MarkerFile=<dest>.vmrk` with all other lines untouched.  With source
basename `Data` the replace-all of the basename inside the matched line also
rewrites the `DataFile=` literal: the destination line is
`barFile=bar.eeg`, not the claimed `DataFile=bar.eeg`. -/
theorem copyfile_brainvision_roundtrip_counterexample :
    copyfile_brainvision
        [("Data.vhdr", "DataFile=Data.eeg\nMarkerFile=Data.vmrk\n")]
        "Data.vhdr" "bar.vhdr"
      = Except.ok
          [("bar.vhdr", "barFile=bar.eeg\nMarkerFile=bar.vmrk\n"),
           ("Data.vhdr", "DataFile=Data.eeg\nMarkerFile=Data.vmrk\n")]
    ∧ ("barFile=bar.eeg\nMarkerFile=bar.vmrk\n" : String)
        ≠ "DataFile=bar.eeg\nMarkerFile=bar.vmrk\n" :=
  ⟨rfl, by decide⟩

/-- C5 counterexample: the claim says a reference line carrying extra
leading or trailing whitespace is NOT rewritten and is copied verbatim.
The code strips each line before comparing, so the whitespace-padded line
` DataFile=foo.eeg` IS rewritten (to ` DataFile=bar.eeg`), not copied
verbatim. -/
theorem copyfile_brainvision_whitespace_counterexample :
    copyfile_brainvision [("foo.vhdr", " DataFile=foo.eeg\n")] "foo.vhdr"
        "bar.vhdr"
      = Except.ok
          [("bar.vhdr", " DataFile=bar.eeg\n"),
           ("foo.vhdr", " DataFile=foo.eeg\n")]
    ∧ (" DataFile=bar.eeg\n" : String) ≠ " DataFile=foo.eeg\n" :=
  ⟨rfl, by decide⟩

/-- C6 counterexample: the claim says that for a `.vmrk` member only
`DataFile=` lines are rewritten and a `MarkerFile=` reference line is
copied verbatim.  The code builds both search lines unconditionally, so the
`MarkerFile=foo.vmrk` line inside a `.vmrk` source IS rewritten. -/
theorem copyfile_brainvision_vmrk_markerfile_counterexample :
    copyfile_brainvision [("foo.vmrk", "MarkerFile=foo.vmrk\n")] "foo.vmrk"
        "bar.vmrk"
      = Except.ok
          [("bar.vmrk", "MarkerFile=bar.vmrk\n"),
           ("foo.vmrk", "MarkerFile=foo.vmrk\n")]
    ∧ ("MarkerFile=bar.vmrk\n" : String) ≠ "MarkerFile=foo.vmrk\n" :=
  ⟨rfl, by decide⟩

/-! ### Claim C7: copy preconditions -/

/-- C7: `copyfile_brainvision` fails with an IOKind error when the source
path does not exist, and with a ValueKind error when the source and
destination extensions differ or when the shared extension is outside
{.eeg, .vhdr, .vmrk}.  In each case the result is an error, so no
destination file is written (a write happens only in the success value). -/
theorem copyfile_brainvision_preconditions :
    (∀ (fs : FileSystem) (src dest : String),
       fs.lookup src = Option.none →
       copyfile_brainvision fs src dest
         = Except.error (BidsError.ioKind
             ("File does not exist: " ++ src ++ "\n")))
    ∧ (∀ (fs : FileSystem) (src dest content : String),
       fs.lookup src = Option.some content →
       (_parse_ext src).2 ≠ (_parse_ext dest).2 →
       copyfile_brainvision fs src dest
         = Except.error (BidsError.valueKind
             ("Need to move data with same extension but got "
               ++ (_parse_ext src).2 ++ ", " ++ (_parse_ext dest).2)))
    ∧ (∀ (fs : FileSystem) (src dest content : String),
       fs.lookup src = Option.some content →
       (_parse_ext src).2 = (_parse_ext dest).2 →
       bv_ext.contains (_parse_ext src).2 = false →
       copyfile_brainvision fs src dest
         = Except.error (BidsError.valueKind
             ("Expecting file ending in one of [.eeg, .vhdr, .vmrk], but got "
               ++ (_parse_ext src).2))) := by
  refine ⟨?_, ?_, ?_⟩
  · intro fs src dest h
    simp [copyfile_brainvision, h]
  · intro fs src dest content h hne
    simp [copyfile_brainvision, h, hne]
  · intro fs src dest content h heq hbv
    have hbv2 : ¬ ((_parse_ext dest).2 ∈ bv_ext) := fun hmem => by
      have h2 : bv_ext.contains (_parse_ext src).2 = true := by
        rw [heq]; exact List.elem_iff.2 hmem
      rw [hbv] at h2
      cases h2
    simp [copyfile_brainvision, h, heq, hbv2]

/-- C7 witness: the three error branches at concrete inputs — a missing
source, a `.vhdr` to `.eeg` extension mismatch, and a shared unsupported
`.txt` extension. -/
theorem copyfile_brainvision_preconditions_witness :
    copyfile_brainvision ([] : FileSystem) "a.vhdr" "b.vhdr"
      = Except.error (BidsError.ioKind "File does not exist: a.vhdr\n")
    ∧ copyfile_brainvision [("x.vhdr", "a\n")] "x.vhdr" "y.eeg"
      = Except.error (BidsError.valueKind
          "Need to move data with same extension but got .vhdr, .eeg")
    ∧ copyfile_brainvision [("x.txt", "a\n")] "x.txt" "y.txt"
      = Except.error (BidsError.valueKind
          "Expecting file ending in one of [.eeg, .vhdr, .vmrk], but got .txt") := by
  refine ⟨?_, ?_, ?_⟩
  · have h := copyfile_brainvision_preconditions.1 ([] : FileSystem)
      "a.vhdr" "b.vhdr" rfl
    simpa using h
  · have h := copyfile_brainvision_preconditions.2.1 [("x.vhdr", "a\n")]
      "x.vhdr" "y.eeg" "a\n" (by decide) (by decide)
    simpa using h
  · have h := copyfile_brainvision_preconditions.2.2 [("x.txt", "a\n")]
      "x.txt" "y.txt" "a\n" (by decide) (by decide) (by decide)
    simpa using h

/-! ### Token-building lemmas for the filename builder -/

theorem normRun_pvOf (o : Option String) : normRun (pvOf o) = pvOf o := by
  cases o <;> rfl

theorem pvOf_none : pvOf Option.none = PyVal.none := rfl

theorem pvOf_some (s : String) : pvOf (Option.some s) = PyVal.str s := rfl

theorem check_types_pvOf_cons (o : Option String) (rest : List PyVal) :
    _check_types (pvOf o :: rest) = _check_types rest := by
  cases o <;> rfl

theorem buildTokens_pvOf_ok (l : List (String × Option String))
    (h : ∀ p ∈ l, validOptB p.2 = true) :
    buildTokens (l.map (fun kv => (kv.1, pvOf kv.2)))
      = Except.ok (l.filterMap (fun kv => kv.2.map (fun v => kv.1 ++ "-" ++ v))) := by
  induction l with
  | nil => rfl
  | cons hd tl ih =>
    obtain ⟨k, o⟩ := hd
    have htl : ∀ p ∈ tl, validOptB p.2 = true :=
      fun p hp => h p (List.mem_cons_of_mem _ hp)
    cases o with
    | none =>
      simpa [buildTokens, pvOf_none, List.filterMap_cons] using ih htl
    | some v =>
      have hv : hasForbidden v = false := by
        have := h (k, Option.some v) (List.mem_cons_self _ _)
        simpa [validOptB] using this
      simp [buildTokens, pvOf_some, _check_key_val, hv, ih htl, List.filterMap_cons]

theorem buildTokens_pvOf_error (l : List (String × Option String))
    (h : ∃ p ∈ l, ∃ v, p.2 = Option.some v ∧ hasForbidden v = true) :
    ∃ m, buildTokens (l.map (fun kv => (kv.1, pvOf kv.2)))
      = Except.error (BidsError.validationKind m) := by
  induction l with
  | nil =>
    rcases h with ⟨p, hp, _⟩
    cases hp
  | cons hd tl ih =>
    obtain ⟨k, o⟩ := hd
    cases o with
    | none =>
      have htl : ∃ p ∈ tl, ∃ v, p.2 = Option.some v ∧ hasForbidden v = true := by
        rcases h with ⟨p, hp, v, hv, hbad⟩
        rcases List.mem_cons.1 hp with rfl | hmem
        · cases hv
        · exact ⟨p, hmem, v, hv, hbad⟩
      obtain ⟨m, hm⟩ := ih htl
      exact ⟨m, by simp [buildTokens, pvOf_none, hm]⟩
    | some v =>
      by_cases hb : hasForbidden v = true
      · refine ⟨"Unallowed `-`, `_`, or `/` found in key/value pair " ++ k ++ ": " ++ v, ?_⟩
        simp [buildTokens, pvOf_some, _check_key_val, hb]
      · have hbf : hasForbidden v = false := by
          cases hx : hasForbidden v
          · rfl
          · exact absurd hx hb
        have htl : ∃ p ∈ tl, ∃ v, p.2 = Option.some v ∧ hasForbidden v = true := by
          rcases h with ⟨p, hp, w, hw, hbad⟩
          rcases List.mem_cons.1 hp with rfl | hmem
          · simp only [Option.some.injEq] at hw
            subst hw
            exact absurd hbad hb
          · exact ⟨p, hmem, w, hw, hbad⟩
        obtain ⟨m, hm⟩ := ih htl
        refine ⟨m, ?_⟩
        simp [buildTokens, pvOf_some, _check_key_val, hbf, hm]

/-! ### Claim C2: canonical entity ordering -/

/-- C2: for every subset of non-None (valid) entity values, the name
returned by `make_bids_filename` consists of the `key-value` tokens in the
fixed canonical order sub, ses, task, acq, run, proc, space, recording,
joined by underscores, with the string suffix as the final token
(`canonicalTokens` states exactly this reading of the spec); and the
documented example evaluates to `sub-test_ses-two_task-mytask_data.csv`. -/
theorem make_bids_filename_canonical_order :
    (∀ (subject session task acquisition run processing recording space
         suffix : Option String),
       (∀ o ∈ [subject, session, task, acquisition, run, processing,
               recording, space], validOptB o = true) →
       make_bids_filename (pvOf subject) (pvOf session) (pvOf task)
           (pvOf acquisition) (pvOf run) (pvOf processing) (pvOf recording)
           (pvOf space) (pvOf suffix) PyVal.none
         = Except.ok (String.intercalate "_"
             (canonicalTokens subject session task acquisition run processing
               recording space suffix)))
    ∧ make_bids_filename (PyVal.str "test") (PyVal.str "two")
        (PyVal.str "mytask") PyVal.none PyVal.none PyVal.none PyVal.none
        PyVal.none (PyVal.str "data.csv") PyVal.none
      = Except.ok "sub-test_ses-two_task-mytask_data.csv" := by
  refine ⟨?_, rfl⟩
  intro subject session task acquisition run processing recording space suffix h
  have hv : ∀ p ∈ ([("sub", subject), ("ses", session), ("task", task),
      ("acq", acquisition), ("run", run), ("proc", processing),
      ("space", space), ("recording", recording)] :
        List (String × Option String)), validOptB p.2 = true := by
    intro p hp
    simp only [List.mem_cons, List.not_mem_nil, or_false] at hp
    rcases hp with rfl | rfl | rfl | rfl | rfl | rfl | rfl | rfl <;>
      exact h _ (by simp)
  have hbt := buildTokens_pvOf_ok _ hv
  simp only [List.map_cons, List.map_nil] at hbt
  simp only [make_bids_filename, normRun_pvOf, List.map_cons, List.map_nil,
    check_types_pvOf_cons, _check_types, List.any_cons, pyKeyIsString,
    Bool.true_or, Bool.not_true, Bool.false_eq_true, if_false, hbt,
    canonicalTokens]
  cases suffix <;> simp [pvOf_none, pvOf_some]

/-- C2 witness: the universally quantified part applied at the documented
example input. -/
theorem make_bids_filename_canonical_order_witness :
    make_bids_filename (pvOf (Option.some "test")) (pvOf (Option.some "two"))
        (pvOf (Option.some "mytask")) (pvOf Option.none) (pvOf Option.none)
        (pvOf Option.none) (pvOf Option.none) (pvOf Option.none)
        (pvOf (Option.some "data.csv")) PyVal.none
      = Except.ok (String.intercalate "_"
          (canonicalTokens (Option.some "test") (Option.some "two")
            (Option.some "mytask") Option.none Option.none Option.none
            Option.none Option.none (Option.some "data.csv"))) :=
  make_bids_filename_canonical_order.1 _ _ _ _ _ _ _ _ _ (by decide)

/-! ### Claim C3: key/value validation aborts the build -/

/-- C3: `_check_key_val` fails with a ValidationKind error exactly when the
value contains `-`, `_` or `/`, and returns the pair unchanged otherwise;
and whenever some provided entity value is invalid, the whole
`make_bids_filename` call returns a ValidationKind error, so no partial
filename is produced. -/
theorem make_bids_filename_validation :
    (∀ key val : String, hasForbidden val = true →
       _check_key_val key val = Except.error (BidsError.validationKind
         ("Unallowed `-`, `_`, or `/` found in key/value pair " ++ key ++ ": "
           ++ val)))
    ∧ (∀ key val : String, hasForbidden val = false →
       _check_key_val key val = Except.ok (key, val))
    ∧ (∀ (subject session task acquisition run processing recording space :
          Option String) (suffix prefixPath : PyVal),
       (∃ o ∈ [subject, session, task, acquisition, run, processing,
               recording, space],
          ∃ v, o = Option.some v ∧ hasForbidden v = true) →
       ∃ m, make_bids_filename (pvOf subject) (pvOf session) (pvOf task)
              (pvOf acquisition) (pvOf run) (pvOf processing) (pvOf recording)
              (pvOf space) suffix prefixPath
            = Except.error (BidsError.validationKind m)) := by
  refine ⟨?_, ?_, ?_⟩
  · intro key val hb
    simp [_check_key_val, hb]
  · intro key val hb
    simp [_check_key_val, hb]
  · intro subject session task acquisition run processing recording space
      suffix prefixPath h
    obtain ⟨o, ho, v, hov, hbad⟩ := h
    subst hov
    simp only [List.mem_cons, List.not_mem_nil, or_false] at ho
    have hx : ∃ p ∈ ([("sub", subject), ("ses", session), ("task", task),
        ("acq", acquisition), ("run", run), ("proc", processing),
        ("space", space), ("recording", recording)] :
          List (String × Option String)),
        ∃ w, p.2 = Option.some w ∧ hasForbidden w = true := by
      rcases ho with h1 | h1 | h1 | h1 | h1 | h1 | h1 | h1
      · exact ⟨("sub", subject), by simp, v, h1.symm, hbad⟩
      · exact ⟨("ses", session), by simp, v, h1.symm, hbad⟩
      · exact ⟨("task", task), by simp, v, h1.symm, hbad⟩
      · exact ⟨("acq", acquisition), by simp, v, h1.symm, hbad⟩
      · exact ⟨("run", run), by simp, v, h1.symm, hbad⟩
      · exact ⟨("proc", processing), by simp, v, h1.symm, hbad⟩
      · exact ⟨("recording", recording), by simp, v, h1.symm, hbad⟩
      · exact ⟨("space", space), by simp, v, h1.symm, hbad⟩
    obtain ⟨m, hm⟩ := buildTokens_pvOf_error _ hx
    simp only [List.map_cons, List.map_nil] at hm
    refine ⟨m, ?_⟩
    simp only [make_bids_filename, normRun_pvOf, List.map_cons, List.map_nil,
      check_types_pvOf_cons, _check_types, List.any_cons, pyKeyIsString,
      Bool.true_or, Bool.not_true, Bool.false_eq_true, if_false, hm]

/-- C3 witness: the validator at an invalid and a valid concrete value, and
the whole builder aborting on `subject="a_b"`. -/
theorem make_bids_filename_validation_witness :
    _check_key_val "sub" "a_b" = Except.error (BidsError.validationKind
        "Unallowed `-`, `_`, or `/` found in key/value pair sub: a_b")
    ∧ _check_key_val "sub" "ab" = Except.ok ("sub", "ab")
    ∧ ∃ m, make_bids_filename (PyVal.str "a_b") PyVal.none PyVal.none
        PyVal.none PyVal.none PyVal.none PyVal.none PyVal.none PyVal.none
        PyVal.none
      = Except.error (BidsError.validationKind m) := by
  refine ⟨?_, ?_, ?_⟩
  · exact make_bids_filename_validation.1 "sub" "a_b" (by decide)
  · exact make_bids_filename_validation.2.1 "sub" "ab" (by decide)
  · exact make_bids_filename_validation.2.2 (Option.some "a_b") Option.none
      Option.none Option.none Option.none Option.none Option.none Option.none
      PyVal.none PyVal.none
      ⟨Option.some "a_b", by simp, "a_b", rfl, by decide⟩

/-! ### Path-join lemmas for the folder builder -/

theorem lit_slash_sub (X : String) :
    ("/" : String) ++ ("sub-" ++ X) = "/sub-" ++ X := by
  rw [← String.append_assoc]
  rfl

theorem lit_slash_ses (X : String) :
    ("/" : String) ++ ("ses-" ++ X) = "/ses-" ++ X := by
  rw [← String.append_assoc]
  rfl

theorem osPathJoin_normal (a b : String) (hb : b.data.head? ≠ some '/')
    (ha0 : a ≠ "") (ha1 : a.data.getLast? ≠ some '/') :
    osPathJoin a b = a ++ "/" ++ b := by
  unfold osPathJoin
  rw [if_neg hb, if_neg ha0, if_neg ha1]

theorem mem_of_getLast?_eq {l : List Char} {c : Char}
    (h : l.getLast? = some c) : c ∈ l := by
  induction l with
  | nil => cases h
  | cons a l ih =>
    cases l with
    | nil =>
      simp only [List.getLast?_singleton, Option.some.injEq] at h
      simp [h]
    | cons b t =>
      rw [List.getLast?_cons_cons] at h
      exact List.mem_cons_of_mem _ (ih h)

theorem ne_empty_of_data {s : String} {c : Char} {l : List Char}
    (h : s.data = c :: l) : s ≠ "" := by
  intro he
  subst he
  simp at h

theorem not_mem_of_hasForbidden_false {v : String}
    (h : hasForbidden v = false) :
    ¬ '-' ∈ v.data ∧ ¬ '_' ∈ v.data ∧ ¬ '/' ∈ v.data := by
  simp only [hasForbidden, List.any_cons, List.any_nil, Bool.or_false,
    Bool.or_eq_false_iff] at h
  obtain ⟨h1, h2, h3⟩ := h
  refine ⟨fun hm => ?_, fun hm => ?_, fun hm => ?_⟩
  · have hx : v.data.contains '-' = true := List.elem_iff.2 hm
    rw [h1] at hx
    cases hx
  · have hx : v.data.contains '_' = true := List.elem_iff.2 hm
    rw [h2] at hx
    cases hx
  · have hx : v.data.contains '/' = true := List.elem_iff.2 hm
    rw [h3] at hx
    cases hx

theorem getLast?_lit_append (t : String) (s : String) (c : Char)
    (ht : t.data.getLast? = some c) (hc : c ≠ '/')
    (hs : s.data.getLast? ≠ some '/') :
    (t ++ s).data.getLast? ≠ some '/' := by
  rw [String.data_append, List.getLast?_append]
  cases hl : s.data.getLast? with
  | none => simpa [hl, ht, Option.or] using fun h => hc h
  | some d =>
    rw [hl] at hs
    simpa [hl, Option.or] using fun h => hs (by rw [h])

theorem getLast?_append_of_ne_nil (t s : String)
    (hd : s.data.getLast? ≠ some '/') (hnil : s.data ≠ []) :
    (t ++ s).data.getLast? ≠ some '/' := by
  rw [String.data_append, List.getLast?_append]
  cases hl : s.data.getLast? with
  | none => exact absurd (List.getLast?_eq_none_iff.1 hl) hnil
  | some d =>
    rw [hl] at hd
    simpa [Option.or] using hd

/-! ### Claim C9: folder path composition without filesystem mutation -/

/-- C9: `make_bids_folders` composes the path
`root/sub-<subject>/ses-<session>/<kind>` with each optional segment
(`session`, `kind`, `root`) present exactly when its source value is
non-None (`composedPath` states this reading of the spec; all eight
presence combinations are covered), and with `make_dir = False` it records
no directory-creation effect.  The composition part assumes the segments
are free of path-join anomalies (no segment starts or ends with a slash
and a present root is non-empty, which is what the slash-free entity
discipline guarantees); the mutation-freedom part is fully general, and
the concrete example gives `proj/sub-01/ses-s1/meg`. -/
theorem make_bids_folders_path_composition :
    (∀ (subject : String) (session kind root : Option String) (ov vb : Bool),
       (match session with
        | Option.some s => hasForbidden s = false
        | Option.none => True) →
       subject.data.getLast? ≠ some '/' →
       (match kind with
        | Option.some k => k.data.head? ≠ some '/'
        | Option.none => True) →
       (match root with
        | Option.some r => r ≠ "" ∧ r.data.getLast? ≠ some '/'
        | Option.none => True) →
       make_bids_folders (PyVal.str subject) (pvOf session) (pvOf kind)
           (pvOf root) false ov vb
         = Except.ok (composedPath subject session kind root, []))
    ∧ (∀ (subject session kind root : PyVal) (ov vb : Bool) (p : String)
         (eff : List String),
       make_bids_folders subject session kind root false ov vb
         = Except.ok (p, eff) → eff = [])
    ∧ make_bids_folders (PyVal.str "01") (PyVal.str "s1") (PyVal.str "meg")
        (PyVal.str "proj") false true false
      = Except.ok ("proj/sub-01/ses-s1/meg", []) := by
  refine ⟨?_, ?_, rfl⟩
  · intro subject session kind root ov vb h1 h2 h3 h4
    have ha0 : ("sub-" ++ subject) ≠ "" := ne_empty_of_data rfl
    have ha1 : ("sub-" ++ subject).data.getLast? ≠ some '/' :=
      getLast?_lit_append "sub-" subject '-' rfl (by decide) h2
    have hhd1 : ("sub-" ++ subject).data.head? ≠ some '/' := by
      rw [show ("sub-" ++ subject).data.head? = some 's' from rfl]
      decide
    rcases session with _ | s
    · rcases kind with _ | k
      · rcases root with _ | r
        · -- no session, no kind, no root
          simp only [pvOf_none, make_bids_folders, _check_types, pyStrOf,
            osPathJoinList, List.foldl_nil, Bool.false_eq_true, if_false,
            composedPath, String.empty_append, String.append_empty]
        · -- no session, no kind, root r
          obtain ⟨hr0, hr1⟩ := h4
          have hjr := osPathJoin_normal r ("sub-" ++ subject) hhd1 hr0 hr1
          simp only [pvOf_none, pvOf_some, make_bids_folders, _check_types,
            pyStrOf, osPathJoinList, List.foldl_nil, Bool.false_eq_true,
            if_false, composedPath, String.append_empty]
          rw [hjr]
          simp only [String.append_assoc, String.empty_append, String.append_empty]
      · -- no session, kind k
        have hjk := osPathJoin_normal ("sub-" ++ subject) k h3 ha0 ha1
        rcases root with _ | r
        · simp only [pvOf_none, pvOf_some, make_bids_folders, _check_types,
            pyStrOf, List.cons_append, List.nil_append, osPathJoinList,
            List.foldl_cons, List.foldl_nil, Bool.false_eq_true, if_false,
            composedPath, String.empty_append, String.append_empty]
          rw [hjk]
          simp only [String.append_assoc, String.empty_append, String.append_empty]
        · obtain ⟨hr0, hr1⟩ := h4
          have hhd2 : ("sub-" ++ subject ++ "/" ++ k).data.head?
              ≠ some '/' := by
            rw [show ("sub-" ++ subject ++ "/" ++ k).data.head? = some 's'
              from rfl]
            decide
          have hjr := osPathJoin_normal r ("sub-" ++ subject ++ "/" ++ k)
            hhd2 hr0 hr1
          simp only [pvOf_none, pvOf_some, make_bids_folders, _check_types,
            pyStrOf, List.cons_append, List.nil_append, osPathJoinList,
            List.foldl_cons, List.foldl_nil, Bool.false_eq_true, if_false,
            composedPath, String.append_empty]
          rw [hjk, hjr]
          simp only [String.append_assoc, String.empty_append, String.append_empty]
    · -- session s
      have hses3 : ¬ '/' ∈ s.data := (not_mem_of_hasForbidden_false h1).2.2
      have hb1 : ("ses-" ++ s).data.head? ≠ some '/' := by
        rw [show ("ses-" ++ s).data.head? = some 's' from rfl]
        decide
      have hsesLast : ("ses-" ++ s).data.getLast? ≠ some '/' := by
        refine getLast?_lit_append "ses-" s '-' rfl (by decide) ?_
        intro hc
        exact hses3 (mem_of_getLast?_eq hc)
      have hj1 := osPathJoin_normal ("sub-" ++ subject) ("ses-" ++ s)
        hb1 ha0 ha1
      have ht1ne : ("sub-" ++ subject ++ "/" ++ ("ses-" ++ s)) ≠ "" :=
        ne_empty_of_data rfl
      have ht1last :
          ("sub-" ++ subject ++ "/" ++ ("ses-" ++ s)).data.getLast?
            ≠ some '/' :=
        getLast?_append_of_ne_nil _ _ hsesLast
          (by
            rw [show ("ses-" ++ s).data = 's' :: ("es-".data ++ s.data)
              from rfl]
            simp)
      have hhd2 : ("sub-" ++ subject ++ "/" ++ ("ses-" ++ s)).data.head?
          ≠ some '/' := by
        rw [show ("sub-" ++ subject ++ "/" ++ ("ses-" ++ s)).data.head?
          = some 's' from rfl]
        decide
      rcases kind with _ | k
      · rcases root with _ | r
        · -- session, no kind, no root
          simp only [pvOf_none, pvOf_some, make_bids_folders, _check_types,
            _check_key_val, h1, Bool.false_eq_true, if_false, Except.map,
            pyStrOf, List.cons_append, List.nil_append, osPathJoinList,
            List.foldl_cons, List.foldl_nil, composedPath,
            String.append_empty]
          rw [hj1]
          simp only [String.append_assoc, String.empty_append, String.append_empty]
          rw [lit_slash_ses]
        · -- session, no kind, root r
          obtain ⟨hr0, hr1⟩ := h4
          have hjr := osPathJoin_normal r
            ("sub-" ++ subject ++ "/" ++ ("ses-" ++ s)) hhd2 hr0 hr1
          simp only [pvOf_none, pvOf_some, make_bids_folders, _check_types,
            _check_key_val, h1, Bool.false_eq_true, if_false, Except.map,
            pyStrOf, List.cons_append, List.nil_append, osPathJoinList,
            List.foldl_cons, List.foldl_nil, composedPath,
            String.append_empty]
          rw [hj1, hjr]
          simp only [String.append_assoc, String.empty_append, String.append_empty]
          rw [lit_slash_ses]
      · -- session, kind k
        have hj2 := osPathJoin_normal
          ("sub-" ++ subject ++ "/" ++ ("ses-" ++ s)) k h3 ht1ne ht1last
        rcases root with _ | r
        · simp only [pvOf_none, pvOf_some, make_bids_folders, _check_types,
            _check_key_val, h1, Bool.false_eq_true, if_false, Except.map,
            pyStrOf, List.cons_append, List.nil_append, osPathJoinList,
            List.foldl_cons, List.foldl_nil, composedPath,
            String.empty_append, String.append_empty]
          rw [hj1, hj2]
          simp only [String.append_assoc, String.empty_append, String.append_empty]
          rw [lit_slash_ses]
        · obtain ⟨hr0, hr1⟩ := h4
          have hhd3 :
              ("sub-" ++ subject ++ "/" ++ ("ses-" ++ s) ++ "/"
                ++ k).data.head? ≠ some '/' := by
            rw [show ("sub-" ++ subject ++ "/" ++ ("ses-" ++ s) ++ "/"
              ++ k).data.head? = some 's' from rfl]
            decide
          have hjr := osPathJoin_normal r
            ("sub-" ++ subject ++ "/" ++ ("ses-" ++ s) ++ "/" ++ k)
            hhd3 hr0 hr1
          simp only [pvOf_none, pvOf_some, make_bids_folders, _check_types,
            _check_key_val, h1, Bool.false_eq_true, if_false, Except.map,
            pyStrOf, List.cons_append, List.nil_append, osPathJoinList,
            List.foldl_cons, List.foldl_nil, composedPath]
          rw [hj1, hj2, hjr]
          simp only [String.append_assoc, String.empty_append, String.append_empty]
          rw [lit_slash_ses]
  · intro subject session kind root ov vb p eff h
    unfold make_bids_folders at h
    repeat' split at h
    all_goals simp_all

/-- C9 witness: the general composition part applied at the documented
concrete input (all three optional segments present), with
`make_dir = False` and no recorded effect. -/
theorem make_bids_folders_path_composition_witness :
    make_bids_folders (PyVal.str "01") (PyVal.str "s1") (PyVal.str "meg")
        (PyVal.str "proj") false false false
      = Except.ok ("proj/sub-01/ses-s1/meg", []) :=
  make_bids_folders_path_composition.1 "01" (Option.some "s1")
    (Option.some "meg") (Option.some "proj") false false
    (by decide) (by decide) (by decide) (by decide)


/-! ### Lemmas about the replace scanner -/

theorem isPrefixOf_append_self (l s : List Char) :
    l.isPrefixOf (l ++ s) = true := by
  induction l with
  | nil => cases s <;> rfl
  | cons c l ih => simp [List.isPrefixOf, ih]

theorem isPrefixOf_nil_eq_false (pat : List Char) (h : pat ≠ []) :
    pat.isPrefixOf ([] : List Char) = false := by
  cases pat with
  | nil => exact absurd rfl h
  | cons c p => rfl

theorem pyReplaceFuel_skip (pat rep : List Char) :
    ∀ (P rest : List Char) (fuel : Nat),
      (∀ i < P.length, pat.isPrefixOf ((P ++ rest).drop i) = false) →
      pyReplaceFuel pat rep (P.length + fuel) (P ++ rest)
        = P ++ pyReplaceFuel pat rep fuel rest := by
  intro P
  induction P with
  | nil => intro rest fuel _; simp
  | cons c P ih =>
    intro rest fuel h
    have hlen : (c :: P).length + fuel = (P.length + fuel) + 1 := by
      simp only [List.length_cons]
      omega
    rw [hlen]
    have h0 : pat.isPrefixOf (c :: (P ++ rest)) = false := by
      simpa using h 0 (by simp)
    simp only [List.cons_append, pyReplaceFuel, List.append_eq, h0,
      Bool.false_and, Bool.false_eq_true, if_false]
    have h1 : ∀ i < P.length, pat.isPrefixOf ((P ++ rest).drop i) = false :=
      fun i hi => by
        have := h (i + 1) (by simp only [List.length_cons]; omega)
        simpa [List.drop_succ_cons] using this
    rw [ih rest fuel h1]

theorem pyReplaceFuel_no_match (pat rep : List Char) :
    ∀ (S : List Char) (fuel : Nat), S.length ≤ fuel →
      (∀ i, pat.isPrefixOf (S.drop i) = false) →
      pyReplaceFuel pat rep fuel S = S := by
  intro S
  induction S with
  | nil => intro fuel _ _; cases fuel <;> rfl
  | cons c S ih =>
    intro fuel hf h
    obtain ⟨f, rfl⟩ : ∃ f, fuel = f + 1 := by
      refine ⟨fuel - 1, ?_⟩
      simp only [List.length_cons] at hf
      omega
    have h0 : pat.isPrefixOf (c :: S) = false := by simpa using h 0
    simp only [pyReplaceFuel, h0, Bool.false_and, Bool.false_eq_true, if_false]
    rw [ih f (by simp only [List.length_cons] at hf; omega)
      (fun i => by simpa [List.drop_succ_cons] using h (i + 1))]

theorem pyReplaceFuel_match_head (pat rep S : List Char) (fuel : Nat)
    (hpat : pat ≠ []) :
    pyReplaceFuel pat rep (fuel + 1) (pat ++ S)
      = rep ++ pyReplaceFuel pat rep fuel S := by
  obtain ⟨c, p, rfl⟩ : ∃ c p, pat = c :: p := by
    cases pat with
    | nil => exact absurd rfl hpat
    | cons c p => exact ⟨c, p, rfl⟩
  have hpre : (c :: p).isPrefixOf (c :: (p ++ S)) = true :=
    isPrefixOf_append_self (c :: p) S
  simp only [List.cons_append, pyReplaceFuel, List.append_eq, hpre,
    List.isEmpty_cons, Bool.not_false, Bool.and_true, Bool.true_and, if_true]
  rw [show (c :: p).length - 1 = p.length from by simp]
  rw [List.drop_left]

theorem pyReplace_designated (P pat S rep : List Char) (hpat : pat ≠ [])
    (hocc : ∀ i < ((P ++ pat) ++ S).length,
        pat.isPrefixOf (((P ++ pat) ++ S).drop i) = true → i = P.length) :
    pyReplace ⟨(P ++ pat) ++ S⟩ ⟨pat⟩ ⟨rep⟩ = ⟨(P ++ rep) ++ S⟩ := by
  have hplen : 0 < pat.length := List.length_pos.2 hpat
  have hskip : ∀ i < P.length,
      pat.isPrefixOf ((P ++ (pat ++ S)).drop i) = false := by
    intro i hi
    cases hb : pat.isPrefixOf ((P ++ (pat ++ S)).drop i) with
    | false => rfl
    | true =>
      rw [← List.append_assoc] at hb
      have := hocc i (by simp only [List.length_append]; omega) hb
      omega
  have hnomatch : ∀ j, pat.isPrefixOf (S.drop j) = false := by
    intro j
    by_cases hj : j < S.length
    · cases hb : pat.isPrefixOf (S.drop j) with
      | false => rfl
      | true =>
        have hdrop : ((P ++ pat) ++ S).drop ((P ++ pat).length + j)
            = S.drop j := List.drop_append j
        have hx := hocc ((P ++ pat).length + j)
          (by simp only [List.length_append]; omega)
          (by rw [hdrop]; exact hb)
        simp only [List.length_append] at hx
        omega
    · rw [List.drop_eq_nil_of_le (by omega)]
      exact isPrefixOf_nil_eq_false pat hpat
  unfold pyReplace
  rw [if_neg (by simpa [List.isEmpty_iff] using hpat)]
  refine congrArg String.mk ?_
  show pyReplaceFuel pat rep (((P ++ pat) ++ S).length + 1) ((P ++ pat) ++ S)
      = (P ++ rep) ++ S
  have hfuel : ((P ++ pat) ++ S).length + 1
      = P.length + (pat.length + S.length + 1) := by
    simp only [List.length_append]
    omega
  rw [hfuel, List.append_assoc]
  rw [pyReplaceFuel_skip pat rep P (pat ++ S) (pat.length + S.length + 1) hskip]
  rw [show pat.length + S.length + 1 = (pat.length + S.length) + 1 from rfl]
  rw [pyReplaceFuel_match_head pat rep S _ hpat]
  rw [pyReplaceFuel_no_match pat rep S (pat.length + S.length) (by omega)
    hnomatch]
  rw [← List.append_assoc]

/-! ### Lemmas about strip, line splitting and the rewrite loop -/

theorem dropWhile_append_all {p : Char → Bool} :
    ∀ (a m : List Char), (∀ c ∈ a, p c = true) →
      (a ++ m).dropWhile p = m.dropWhile p := by
  intro a
  induction a with
  | nil => intro m _; rfl
  | cons c a ih =>
    intro m h
    have hc : p c = true := h c (by simp)
    simp only [List.cons_append, List.dropWhile_cons, hc, if_true]
    exact ih m (fun d hd => h d (by simp [hd]))

theorem pyStrip_sandwich (a m b : List Char)
    (ha : ∀ c ∈ a, pyWhitespace c = true)
    (hb : ∀ c ∈ b, pyWhitespace c = true)
    (hm1 : ∃ c m1, m = c :: m1 ∧ pyWhitespace c = false)
    (hm2 : ∃ c m2, m.reverse = c :: m2 ∧ pyWhitespace c = false) :
    pyStrip ⟨(a ++ m) ++ b⟩ = ⟨m⟩ := by
  obtain ⟨c1, m1, rfl, hc1⟩ := hm1
  obtain ⟨c2, m2, hmrev, hc2⟩ := hm2
  refine congrArg String.mk ?_
  show ((((a ++ (c1 :: m1)) ++ b).dropWhile pyWhitespace).reverse.dropWhile
      pyWhitespace).reverse = c1 :: m1
  rw [List.append_assoc, dropWhile_append_all a _ ha]
  rw [show ((c1 :: m1) ++ b).dropWhile pyWhitespace = (c1 :: m1) ++ b from by
    simp [List.dropWhile_cons, hc1]]
  rw [show ((c1 :: m1) ++ b).reverse = b.reverse ++ (c1 :: m1).reverse from by
    simp]
  rw [dropWhile_append_all b.reverse _
    (fun c hc => hb c (List.mem_reverse.1 hc))]
  rw [hmrev]
  rw [show (c2 :: m2).dropWhile pyWhitespace = c2 :: m2 from by
    simp [List.dropWhile_cons, hc2]]
  rw [← hmrev, List.reverse_reverse]

theorem splitLinesAux_line (w : List Char) (hnw : ¬ '\n' ∈ w) :
    ∀ (r acc : List Char),
      splitLinesAux (w ++ '\n' :: r) acc
        = ⟨(acc.reverse ++ w) ++ ['\n']⟩ :: splitLinesAux r [] := by
  induction w with
  | nil =>
    intro r acc
    simp [splitLinesAux, List.reverse_cons]
  | cons c w ih =>
    intro r acc
    have hc : (c == '\n') = false := by
      have hne : c ≠ '\n' := fun h => hnw (by simp [h])
      simpa using hne
    simp only [List.cons_append, splitLinesAux, List.append_eq, hc,
      Bool.false_eq_true, if_false]
    rw [ih (fun h => hnw (by simp [h])) r (c :: acc)]
    simp [List.reverse_cons, List.append_assoc]

theorem readlines_concatLines : ∀ (lines : List String),
    (∀ l ∈ lines, IsNlLine l) → readlines (concatLines lines) = lines := by
  intro lines
  induction lines with
  | nil => intro _; rfl
  | cons l ls ih =>
    intro h
    obtain ⟨w, hw, hnw⟩ := h l (by simp)
    show splitLinesAux (l ++ concatLines ls).data [] = l :: ls
    rw [String.data_append, hw]
    rw [show (w ++ ['\n']) ++ (concatLines ls).data
      = w ++ '\n' :: (concatLines ls).data from by simp]
    rw [splitLinesAux_line w hnw]
    have h2 : splitLinesAux (concatLines ls).data [] = ls :=
      ih (fun x hx => h x (List.mem_cons_of_mem _ hx))
    rw [h2]
    have h3 : (⟨(List.reverse [] ++ w) ++ ['\n']⟩ : String) = l := by
      refine String.ext ?_
      simp [hw]
    rw [h3]

theorem map_eq_self_of_eq (f : String → String) :
    ∀ (l : List String), (∀ x ∈ l, f x = x) → l.map f = l := by
  intro l
  induction l with
  | nil => intro _; rfl
  | cons x l ih =>
    intro h
    simp only [List.map_cons, h x (by simp),
      ih (fun y hy => h y (by simp [hy]))]

theorem copyfile_text_run (fs : FileSystem) (src dest ext fsrc fdst foo bar
    content : String) (lines : List String)
    (hlook : fs.lookup src = Option.some content)
    (hcontent : content = concatLines lines)
    (hlines : ∀ l ∈ lines, IsNlLine l)
    (hsrc : _parse_ext src = (fsrc, ext))
    (hdest : _parse_ext dest = (fdst, ext))
    (hext : ext = ".vhdr" ∨ ext = ".vmrk")
    (hbs : lastComponent fsrc = foo)
    (hbd : lastComponent fdst = bar) :
    copyfile_brainvision fs src dest
      = Except.ok ((dest, concatLines (lines.map
          (rewriteLine (searchLines foo) foo bar))) :: fs) := by
  have hrl : readlines content = lines := by
    rw [hcontent]
    exact readlines_concatLines lines hlines
  rcases hext with rfl | rfl <;>
    simp [copyfile_brainvision, hlook, hsrc, hdest, bv_ext, hbs, hbd, hrl]

theorem pyStrip_core_line (line core : String) (a b : List Char)
    (hdata : line.data = (a ++ core.data) ++ b)
    (ha : ∀ c ∈ a, pyWhitespace c = true)
    (hb : ∀ c ∈ b, pyWhitespace c = true)
    (h1 : ∃ c l, core.data = c :: l ∧ pyWhitespace c = false)
    (h2 : ∃ c l, core.data.reverse = c :: l ∧ pyWhitespace c = false) :
    pyStrip line = core := by
  have hl : line = ⟨(a ++ core.data) ++ b⟩ := String.ext hdata
  rw [hl, pyStrip_sandwich a core.data b ha hb h1 h2]

theorem isNlLine_core (core : String) (h : ¬ '\n' ∈ core.data) :
    IsNlLine (core ++ "\n") :=
  ⟨core.data, by rw [String.data_append], h⟩

theorem rewriteLine_skip (search : List String) (foo bar line : String)
    (h : search.contains (pyStrip line) = false) :
    rewriteLine search foo bar line = line := by
  unfold rewriteLine
  rw [if_neg (fun hc => by rw [h] at hc; cases hc)]

theorem rewriteLine_core_nl (foo bar core coreB : String) (P S : List Char)
    (hcore : core.data = (P ++ foo.data) ++ S)
    (hcoreB : coreB.data = (P ++ bar.data) ++ S)
    (hmem : core ∈ searchLines foo)
    (h1 : ∃ c l, core.data = c :: l ∧ pyWhitespace c = false)
    (h2 : ∃ c l, core.data.reverse = c :: l ∧ pyWhitespace c = false)
    (hfoo : foo.data ≠ [])
    (hocc : ∀ i < (core ++ "\n").data.length,
        foo.data.isPrefixOf ((core ++ "\n").data.drop i) = true
          → i = P.length) :
    rewriteLine (searchLines foo) foo bar (core ++ "\n") = coreB ++ "\n" := by
  have hstrip : pyStrip (core ++ "\n") = core :=
    pyStrip_core_line (core ++ "\n") core [] ['\n']
      (by rw [String.data_append]; simp) (by simp) (by decide)
      h1 h2
  unfold rewriteLine
  rw [hstrip, if_pos (List.elem_iff.2 hmem)]
  have hdata2 : (core ++ "\n").data = (P ++ foo.data) ++ (S ++ ['\n']) := by
    rw [String.data_append, hcore]
    simp [List.append_assoc]
  have hline : (core ++ "\n") = ⟨(P ++ foo.data) ++ (S ++ ['\n'])⟩ :=
    String.ext hdata2
  have hocc2 : ∀ i < ((P ++ foo.data) ++ (S ++ ['\n'])).length,
      foo.data.isPrefixOf (((P ++ foo.data) ++ (S ++ ['\n'])).drop i) = true
        → i = P.length := by
    intro i hi hp
    refine hocc i ?_ ?_
    · rw [hdata2]; exact hi
    · rw [hdata2]; exact hp
  rw [hline, pyReplace_designated P foo.data (S ++ ['\n']) bar.data hfoo hocc2]
  refine String.ext ?_
  show (P ++ bar.data) ++ (S ++ ['\n']) = (coreB ++ "\n").data
  rw [String.data_append, hcoreB]
  simp [List.append_assoc]

theorem rewriteLine_ws_line (foo bar core coreB : String) (P S a b : List Char)
    (hcore : core.data = (P ++ foo.data) ++ S)
    (hcoreB : coreB.data = (P ++ bar.data) ++ S)
    (hmem : core ∈ searchLines foo)
    (h1 : ∃ c l, core.data = c :: l ∧ pyWhitespace c = false)
    (h2 : ∃ c l, core.data.reverse = c :: l ∧ pyWhitespace c = false)
    (hfoo : foo.data ≠ [])
    (ha : ∀ c ∈ a, pyWhitespace c = true)
    (hb : ∀ c ∈ b, pyWhitespace c = true)
    (hocc : ∀ i < (⟨a⟩ ++ core ++ ⟨b⟩ ++ "\n").data.length,
        foo.data.isPrefixOf ((⟨a⟩ ++ core ++ ⟨b⟩ ++ "\n").data.drop i) = true
          → i = a.length + P.length) :
    rewriteLine (searchLines foo) foo bar (⟨a⟩ ++ core ++ ⟨b⟩ ++ "\n")
      = ⟨a⟩ ++ coreB ++ ⟨b⟩ ++ "\n" := by
  have hdata0 : (⟨a⟩ ++ core ++ ⟨b⟩ ++ "\n" : String).data
      = (a ++ core.data) ++ (b ++ ['\n']) := by
    simp only [String.data_append]
    simp [List.append_assoc]
  have hstrip : pyStrip (⟨a⟩ ++ core ++ ⟨b⟩ ++ "\n") = core :=
    pyStrip_core_line _ core a (b ++ ['\n']) hdata0 ha
      (by
        intro c hc
        rcases List.mem_append.1 hc with hx | hx
        · exact hb c hx
        · rcases List.mem_singleton.1 hx with rfl
          decide)
      h1 h2
  unfold rewriteLine
  rw [hstrip, if_pos (List.elem_iff.2 hmem)]
  have hdata2 : (⟨a⟩ ++ core ++ ⟨b⟩ ++ "\n" : String).data
      = ((a ++ P) ++ foo.data) ++ ((S ++ b) ++ ['\n']) := by
    rw [hdata0, hcore]
    simp [List.append_assoc]
  have hline : (⟨a⟩ ++ core ++ ⟨b⟩ ++ "\n" : String)
      = ⟨((a ++ P) ++ foo.data) ++ ((S ++ b) ++ ['\n'])⟩ :=
    String.ext hdata2
  have hocc2 : ∀ i < (((a ++ P) ++ foo.data) ++ ((S ++ b) ++ ['\n'])).length,
      foo.data.isPrefixOf
          ((((a ++ P) ++ foo.data) ++ ((S ++ b) ++ ['\n'])).drop i) = true
        → i = (a ++ P).length := by
    intro i hi hp
    rw [List.length_append]
    refine hocc i ?_ ?_
    · rw [hdata2]; exact hi
    · rw [hdata2]; exact hp
  rw [hline, pyReplace_designated (a ++ P) foo.data ((S ++ b) ++ ['\n'])
    bar.data hfoo hocc2]
  refine String.ext ?_
  show ((a ++ P) ++ bar.data) ++ ((S ++ b) ++ ['\n'])
      = (⟨a⟩ ++ coreB ++ ⟨b⟩ ++ "\n" : String).data
  simp only [String.data_append]
  rw [hcoreB]
  simp [List.append_assoc]

theorem head_data_line (foo : String) :
    ∃ c l, ("DataFile=" ++ foo ++ ".eeg").data = c :: l
      ∧ pyWhitespace c = false :=
  ⟨'D', ("ataFile=" ++ foo ++ ".eeg").data, rfl, by decide⟩

theorem last_data_line (foo : String) :
    ∃ c l, ("DataFile=" ++ foo ++ ".eeg").data.reverse = c :: l
      ∧ pyWhitespace c = false := by
  refine ⟨'g', ['e', 'e', '.'] ++ ("DataFile=" ++ foo).data.reverse, ?_,
    by decide⟩
  rw [String.data_append, List.reverse_append]
  rfl

theorem head_marker_line (foo : String) :
    ∃ c l, ("MarkerFile=" ++ foo ++ ".vmrk").data = c :: l
      ∧ pyWhitespace c = false :=
  ⟨'M', ("arkerFile=" ++ foo ++ ".vmrk").data, rfl, by decide⟩

theorem last_marker_line (foo : String) :
    ∃ c l, ("MarkerFile=" ++ foo ++ ".vmrk").data.reverse = c :: l
      ∧ pyWhitespace c = false := by
  refine ⟨'k', ['r', 'm', 'v', '.'] ++ ("MarkerFile=" ++ foo).data.reverse, ?_,
    by decide⟩
  rw [String.data_append, List.reverse_append]
  rfl

theorem not_nl_core (pre foo post : String) (hpre : ¬ '\n' ∈ pre.data)
    (hpost : ¬ '\n' ∈ post.data) (hfn : ¬ '\n' ∈ foo.data) :
    ¬ '\n' ∈ (pre ++ foo ++ post).data := by
  intro h
  rw [String.data_append, String.data_append] at h
  rcases List.mem_append.1 h with h1 | h1
  · rcases List.mem_append.1 h1 with h2 | h2
    · exact hpre h2
    · exact hfn h2
  · exact hpost h1

/-! ### Claim C1 (amended): round-trip rewrite of a header file -/

/-- C1 (amended): for a `.vhdr` source whose reference lines are exactly
`DataFile=<foo>.eeg` and `MarkerFile=<foo>.vmrk` — provided the source
basename occurs in each reference line only at its basename position
(indices 9 and 11; the replace-all otherwise also rewrites the surrounding
literals, see the counterexample) and no other line strips to a reference
line — copying to basename `bar` yields a destination whose reference lines
read `DataFile=<bar>.eeg` and `MarkerFile=<bar>.vmrk` while every other
line is byte-identical to the source. -/
theorem copyfile_brainvision_vhdr_roundtrip
    (fs : FileSystem) (src dest fsrc fdst foo bar : String)
    (L1 L2 L3 : List String)
    (hlook : fs.lookup src = Option.some (concatLines
      (L1 ++ ["DataFile=" ++ foo ++ ".eeg" ++ "\n"] ++ L2
        ++ ["MarkerFile=" ++ foo ++ ".vmrk" ++ "\n"] ++ L3)))
    (hsrc : _parse_ext src = (fsrc, ".vhdr"))
    (hdest : _parse_ext dest = (fdst, ".vhdr"))
    (hbs : lastComponent fsrc = foo)
    (hbd : lastComponent fdst = bar)
    (hfoo : foo.data ≠ [])
    (hfn : ¬ '\n' ∈ foo.data)
    (hothers : ∀ l ∈ L1 ++ L2 ++ L3,
      IsNlLine l ∧ (searchLines foo).contains (pyStrip l) = false)
    (hoccD : ∀ i < ("DataFile=" ++ foo ++ ".eeg" ++ "\n").data.length,
      foo.data.isPrefixOf
          (("DataFile=" ++ foo ++ ".eeg" ++ "\n").data.drop i) = true
        → i = 9)
    (hoccM : ∀ i < ("MarkerFile=" ++ foo ++ ".vmrk" ++ "\n").data.length,
      foo.data.isPrefixOf
          (("MarkerFile=" ++ foo ++ ".vmrk" ++ "\n").data.drop i) = true
        → i = 11) :
    copyfile_brainvision fs src dest
      = Except.ok ((dest, concatLines
          (L1 ++ ["DataFile=" ++ bar ++ ".eeg" ++ "\n"] ++ L2
            ++ ["MarkerFile=" ++ bar ++ ".vmrk" ++ "\n"] ++ L3)) :: fs) := by
  have hlines : ∀ l ∈ (L1 ++ ["DataFile=" ++ foo ++ ".eeg" ++ "\n"] ++ L2
      ++ ["MarkerFile=" ++ foo ++ ".vmrk" ++ "\n"] ++ L3), IsNlLine l := by
    intro l hl
    simp only [List.mem_append, List.mem_singleton] at hl
    rcases hl with ((((hl | hl) | hl) | hl) | hl)
    · exact (hothers l (by simp [hl])).1
    · subst hl
      exact isNlLine_core _ (not_nl_core "DataFile=" foo ".eeg"
        (by decide) (by decide) hfn)
    · exact (hothers l (by simp [hl])).1
    · subst hl
      exact isNlLine_core _ (not_nl_core "MarkerFile=" foo ".vmrk"
        (by decide) (by decide) hfn)
    · exact (hothers l (by simp [hl])).1
  have hrun := copyfile_text_run fs src dest ".vhdr" fsrc fdst foo bar _ _
    hlook rfl hlines hsrc hdest (Or.inl rfl) hbs hbd
  have hdl := rewriteLine_core_nl foo bar ("DataFile=" ++ foo ++ ".eeg")
    ("DataFile=" ++ bar ++ ".eeg") ("DataFile=" : String).data
    (".eeg" : String).data rfl rfl (by simp [searchLines])
    (head_data_line foo) (last_data_line foo) hfoo hoccD
  have hml := rewriteLine_core_nl foo bar ("MarkerFile=" ++ foo ++ ".vmrk")
    ("MarkerFile=" ++ bar ++ ".vmrk") ("MarkerFile=" : String).data
    (".vmrk" : String).data rfl rfl (by simp [searchLines])
    (head_marker_line foo) (last_marker_line foo) hfoo hoccM
  have hskip1 : ∀ x ∈ L1, rewriteLine (searchLines foo) foo bar x = x :=
    fun x hx => rewriteLine_skip _ _ _ _ (hothers x (by simp [hx])).2
  have hskip2 : ∀ x ∈ L2, rewriteLine (searchLines foo) foo bar x = x :=
    fun x hx => rewriteLine_skip _ _ _ _ (hothers x (by simp [hx])).2
  have hskip3 : ∀ x ∈ L3, rewriteLine (searchLines foo) foo bar x = x :=
    fun x hx => rewriteLine_skip _ _ _ _ (hothers x (by simp [hx])).2
  have hmap : (L1 ++ ["DataFile=" ++ foo ++ ".eeg" ++ "\n"] ++ L2
      ++ ["MarkerFile=" ++ foo ++ ".vmrk" ++ "\n"] ++ L3).map
        (rewriteLine (searchLines foo) foo bar)
      = L1 ++ ["DataFile=" ++ bar ++ ".eeg" ++ "\n"] ++ L2
        ++ ["MarkerFile=" ++ bar ++ ".vmrk" ++ "\n"] ++ L3 := by
    simp only [List.map_append, List.map_cons, List.map_nil]
    rw [map_eq_self_of_eq _ L1 hskip1, map_eq_self_of_eq _ L2 hskip2,
      map_eq_self_of_eq _ L3 hskip3, hdl, hml]
  rw [hrun, hmap]

/-- C1 witness: the amended round-trip applied to a concrete header file
with basenames `foo` and `bar` and two untouched neighbour lines. -/
theorem copyfile_brainvision_vhdr_roundtrip_witness :
    copyfile_brainvision
        [("foo.vhdr", concatLines
          (["junk\n"] ++ ["DataFile=" ++ "foo" ++ ".eeg" ++ "\n"] ++ []
            ++ ["MarkerFile=" ++ "foo" ++ ".vmrk" ++ "\n"] ++ ["rest\n"]))]
        "foo.vhdr" "bar.vhdr"
      = Except.ok
          [("bar.vhdr", concatLines
            (["junk\n"] ++ ["DataFile=" ++ "bar" ++ ".eeg" ++ "\n"] ++ []
              ++ ["MarkerFile=" ++ "bar" ++ ".vmrk" ++ "\n"] ++ ["rest\n"])),
           ("foo.vhdr", concatLines
            (["junk\n"] ++ ["DataFile=" ++ "foo" ++ ".eeg" ++ "\n"] ++ []
              ++ ["MarkerFile=" ++ "foo" ++ ".vmrk" ++ "\n"] ++ ["rest\n"]))] := by
  refine copyfile_brainvision_vhdr_roundtrip _ "foo.vhdr" "bar.vhdr" "foo"
    "bar" "foo" "bar" ["junk\n"] [] ["rest\n"] rfl (by decide) (by decide)
    (by decide) (by decide) (by decide) (by decide) ?_ (by decide) (by decide)
  intro l hl
  simp only [List.append_nil, List.nil_append, List.mem_append,
    List.mem_singleton] at hl
  rcases hl with rfl | rfl
  · exact ⟨⟨("junk" : String).data, rfl, by decide⟩, by decide⟩
  · exact ⟨⟨("rest" : String).data, rfl, by decide⟩, by decide⟩

/-! ### Claim C6 (amended): marker lines are rewritten in .vmrk members too -/

/-- C6 (amended): the search lines do not depend on the member type — for a
`.vmrk` member the code rewrites lines stripping to either
`DataFile=<basename>.eeg` or `MarkerFile=<basename>.vmrk`; in particular a
`MarkerFile` reference line inside a `.vmrk` source IS rewritten to name the
destination basename (not copied verbatim, see the counterexample). -/
theorem copyfile_brainvision_vmrk_markerfile_rewritten
    (fs : FileSystem) (src dest fsrc fdst foo bar : String)
    (L1 L2 : List String)
    (hlook : fs.lookup src = Option.some (concatLines
      (L1 ++ ["MarkerFile=" ++ foo ++ ".vmrk" ++ "\n"] ++ L2)))
    (hsrc : _parse_ext src = (fsrc, ".vmrk"))
    (hdest : _parse_ext dest = (fdst, ".vmrk"))
    (hbs : lastComponent fsrc = foo)
    (hbd : lastComponent fdst = bar)
    (hfoo : foo.data ≠ [])
    (hfn : ¬ '\n' ∈ foo.data)
    (hothers : ∀ l ∈ L1 ++ L2,
      IsNlLine l ∧ (searchLines foo).contains (pyStrip l) = false)
    (hoccM : ∀ i < ("MarkerFile=" ++ foo ++ ".vmrk" ++ "\n").data.length,
      foo.data.isPrefixOf
          (("MarkerFile=" ++ foo ++ ".vmrk" ++ "\n").data.drop i) = true
        → i = 11) :
    copyfile_brainvision fs src dest
      = Except.ok ((dest, concatLines
          (L1 ++ ["MarkerFile=" ++ bar ++ ".vmrk" ++ "\n"] ++ L2)) :: fs) := by
  have hlines : ∀ l ∈ (L1 ++ ["MarkerFile=" ++ foo ++ ".vmrk" ++ "\n"] ++ L2),
      IsNlLine l := by
    intro l hl
    simp only [List.mem_append, List.mem_singleton] at hl
    rcases hl with ((hl | hl) | hl)
    · exact (hothers l (by simp [hl])).1
    · subst hl
      exact isNlLine_core _ (not_nl_core "MarkerFile=" foo ".vmrk"
        (by decide) (by decide) hfn)
    · exact (hothers l (by simp [hl])).1
  have hrun := copyfile_text_run fs src dest ".vmrk" fsrc fdst foo bar _ _
    hlook rfl hlines hsrc hdest (Or.inr rfl) hbs hbd
  have hml := rewriteLine_core_nl foo bar ("MarkerFile=" ++ foo ++ ".vmrk")
    ("MarkerFile=" ++ bar ++ ".vmrk") ("MarkerFile=" : String).data
    (".vmrk" : String).data rfl rfl (by simp [searchLines])
    (head_marker_line foo) (last_marker_line foo) hfoo hoccM
  have hskip1 : ∀ x ∈ L1, rewriteLine (searchLines foo) foo bar x = x :=
    fun x hx => rewriteLine_skip _ _ _ _ (hothers x (by simp [hx])).2
  have hskip2 : ∀ x ∈ L2, rewriteLine (searchLines foo) foo bar x = x :=
    fun x hx => rewriteLine_skip _ _ _ _ (hothers x (by simp [hx])).2
  have hmap : (L1 ++ ["MarkerFile=" ++ foo ++ ".vmrk" ++ "\n"] ++ L2).map
      (rewriteLine (searchLines foo) foo bar)
      = L1 ++ ["MarkerFile=" ++ bar ++ ".vmrk" ++ "\n"] ++ L2 := by
    simp only [List.map_append, List.map_cons, List.map_nil]
    rw [map_eq_self_of_eq _ L1 hskip1, map_eq_self_of_eq _ L2 hskip2, hml]
  rw [hrun, hmap]

/-- C6 witness: the amended statement applied to a concrete `.vmrk` file
whose `MarkerFile` line is rewritten from `foo` to `bar`. -/
theorem copyfile_brainvision_vmrk_markerfile_rewritten_witness :
    copyfile_brainvision
        [("foo.vmrk", concatLines
          (["junk\n"] ++ ["MarkerFile=" ++ "foo" ++ ".vmrk" ++ "\n"] ++ []))]
        "foo.vmrk" "bar.vmrk"
      = Except.ok
          [("bar.vmrk", concatLines
            (["junk\n"] ++ ["MarkerFile=" ++ "bar" ++ ".vmrk" ++ "\n"] ++ [])),
           ("foo.vmrk", concatLines
            (["junk\n"] ++ ["MarkerFile=" ++ "foo" ++ ".vmrk" ++ "\n"] ++ []))] := by
  refine copyfile_brainvision_vmrk_markerfile_rewritten _ "foo.vmrk"
    "bar.vmrk" "foo" "bar" "foo" "bar" ["junk\n"] [] rfl (by decide)
    (by decide) (by decide) (by decide) (by decide) (by decide) ?_ (by decide)
  intro l hl
  simp only [List.append_nil, List.mem_singleton] at hl
  subst hl
  exact ⟨⟨("junk" : String).data, rfl, by decide⟩, by decide⟩

/-! ### Claim C5 (amended): whitespace-padded reference lines ARE rewritten -/

/-- C5 (amended): a line that differs from a reference line only by extra
leading or trailing whitespace IS rewritten — the code strips each line
before comparing with the search lines — with the whitespace preserved and
the basename replaced (the claim said such lines are copied verbatim; see
the counterexample). -/
theorem copyfile_brainvision_whitespace_rewritten
    (fs : FileSystem) (src dest fsrc fdst foo bar : String)
    (a b : List Char) (L1 L2 : List String)
    (hlook : fs.lookup src = Option.some (concatLines
      (L1 ++ [⟨a⟩ ++ ("DataFile=" ++ foo ++ ".eeg") ++ ⟨b⟩ ++ "\n"] ++ L2)))
    (hsrc : _parse_ext src = (fsrc, ".vhdr"))
    (hdest : _parse_ext dest = (fdst, ".vhdr"))
    (hbs : lastComponent fsrc = foo)
    (hbd : lastComponent fdst = bar)
    (hfoo : foo.data ≠ [])
    (hfn : ¬ '\n' ∈ foo.data)
    (ha : ∀ c ∈ a, pyWhitespace c = true)
    (han : ¬ '\n' ∈ a)
    (hb : ∀ c ∈ b, pyWhitespace c = true)
    (hbn : ¬ '\n' ∈ b)
    (hothers : ∀ l ∈ L1 ++ L2,
      IsNlLine l ∧ (searchLines foo).contains (pyStrip l) = false)
    (hocc : ∀ i <
        (⟨a⟩ ++ ("DataFile=" ++ foo ++ ".eeg") ++ ⟨b⟩ ++ "\n" :
          String).data.length,
      foo.data.isPrefixOf
          ((⟨a⟩ ++ ("DataFile=" ++ foo ++ ".eeg") ++ ⟨b⟩ ++ "\n" :
            String).data.drop i) = true
        → i = a.length + 9) :
    copyfile_brainvision fs src dest
      = Except.ok ((dest, concatLines
          (L1 ++ [⟨a⟩ ++ ("DataFile=" ++ bar ++ ".eeg") ++ ⟨b⟩ ++ "\n"]
            ++ L2)) :: fs) := by
  have hnlw : ¬ '\n' ∈ (a ++ ("DataFile=" ++ foo ++ ".eeg").data) ++ b := by
    intro h
    rcases List.mem_append.1 h with h1 | h1
    · rcases List.mem_append.1 h1 with h2 | h2
      · exact han h2
      · exact not_nl_core "DataFile=" foo ".eeg" (by decide) (by decide) hfn h2
    · exact hbn h1
  have hlines : ∀ l ∈ (L1
      ++ [⟨a⟩ ++ ("DataFile=" ++ foo ++ ".eeg") ++ ⟨b⟩ ++ "\n"] ++ L2),
      IsNlLine l := by
    intro l hl
    simp only [List.mem_append, List.mem_singleton] at hl
    rcases hl with ((hl | hl) | hl)
    · exact (hothers l (by simp [hl])).1
    · subst hl
      exact ⟨(a ++ ("DataFile=" ++ foo ++ ".eeg").data) ++ b, rfl, hnlw⟩
    · exact (hothers l (by simp [hl])).1
  have hrun := copyfile_text_run fs src dest ".vhdr" fsrc fdst foo bar _ _
    hlook rfl hlines hsrc hdest (Or.inl rfl) hbs hbd
  have hwl := rewriteLine_ws_line foo bar ("DataFile=" ++ foo ++ ".eeg")
    ("DataFile=" ++ bar ++ ".eeg") ("DataFile=" : String).data
    (".eeg" : String).data a b rfl rfl (by simp [searchLines])
    (head_data_line foo) (last_data_line foo) hfoo ha hb hocc
  have hskip1 : ∀ x ∈ L1, rewriteLine (searchLines foo) foo bar x = x :=
    fun x hx => rewriteLine_skip _ _ _ _ (hothers x (by simp [hx])).2
  have hskip2 : ∀ x ∈ L2, rewriteLine (searchLines foo) foo bar x = x :=
    fun x hx => rewriteLine_skip _ _ _ _ (hothers x (by simp [hx])).2
  have hmap : (L1 ++ [⟨a⟩ ++ ("DataFile=" ++ foo ++ ".eeg") ++ ⟨b⟩ ++ "\n"]
      ++ L2).map (rewriteLine (searchLines foo) foo bar)
      = L1 ++ [⟨a⟩ ++ ("DataFile=" ++ bar ++ ".eeg") ++ ⟨b⟩ ++ "\n"] ++ L2 := by
    simp only [List.map_append, List.map_cons, List.map_nil]
    rw [map_eq_self_of_eq _ L1 hskip1, map_eq_self_of_eq _ L2 hskip2, hwl]
  rw [hrun, hmap]

/-- C5 witness: the amended statement at a concrete file whose reference
line carries one leading space; the rewritten line keeps the space and
names the new basename. -/
theorem copyfile_brainvision_whitespace_rewritten_witness :
    copyfile_brainvision
        [("foo.vhdr", concatLines
          ([] ++ [⟨[' ']⟩ ++ ("DataFile=" ++ "foo" ++ ".eeg") ++ ⟨[]⟩ ++ "\n"]
            ++ []))]
        "foo.vhdr" "bar.vhdr"
      = Except.ok
          [("bar.vhdr", concatLines
            ([] ++ [⟨[' ']⟩ ++ ("DataFile=" ++ "bar" ++ ".eeg") ++ ⟨[]⟩ ++ "\n"]
              ++ [])),
           ("foo.vhdr", concatLines
            ([] ++ [⟨[' ']⟩ ++ ("DataFile=" ++ "foo" ++ ".eeg") ++ ⟨[]⟩ ++ "\n"]
              ++ []))] := by
  refine copyfile_brainvision_whitespace_rewritten _ "foo.vhdr" "bar.vhdr"
    "foo" "bar" "foo" "bar" [' '] [] [] [] rfl (by decide) (by decide)
    (by decide) (by decide) (by decide) (by decide) (by decide) (by decide)
    (by decide) (by decide) ?_ (by decide)
  intro l hl
  simp at hl
